import Mathlib

/-!
Verification of the incremental (streaming) JSON-object parser
(`StreamingJsonParser` in `assignment.py` / `main.py`).

The Python parser mutates a tree of dict objects in place, while a stack of
frames holds aliased references into that tree.  Following the arena model,
every object is a node in an arena (a list of association lists) addressed by
a stable handle (its index); frames hold handles instead of references.  The
root object is the node at handle 0, created at construction.
-/

set_option autoImplicit false

namespace DjParser

/-- A JSON value slot as the parser produces it: either a handle to an object
node in the arena, or a string.  (The Python code only ever stores `dict` or
`str` values.) -/
inductive Value where
  | obj : Nat → Value
  | str : String → Value
deriving DecidableEq

/-- An object node: an association list from keys to values, in insertion
order, as a Python `dict` preserves it. -/
abbrev Obj := List (String × Value)

/-- `obj[key] = value` on a Python dict with unique keys: replace in place if
the key is present, else append at the end. -/
def setKey : Obj → String → Value → Obj
  | [], k, v => [(k, v)]
  | p :: o, k, v => if p.1 = k then (k, v) :: o else p :: setKey o k v

/-- `obj.get(key)`: the value stored under `k`, if any. -/
def lookupKey (o : Obj) (k : String) : Option Value :=
  (o.find? (fun p => p.1 == k)).map (fun p => p.2)

/-- Read the arena node at handle `h` (defaulting to an empty object for an
out-of-range handle, which never occurs for reachable states). -/
def getObj (arena : List Obj) (h : Nat) : Obj :=
  arena.getD h []

/-- Write the arena node at handle `h`. -/
def setObj (arena : List Obj) (h : Nat) (o : Obj) : List Obj :=
  arena.set h o

/-- The state of `StreamingJsonParser`: the arena of object nodes (node 0 is
`self.partial_json`, the root), the frame stack `self.stack` with the TOP as
the head of the list (Python's `stack[-1]`), and the scalar fields
`self.in_string`, `self.escape`, `self.current_string`,
`self.expecting_colon`.  `self.buffer` is always `""` between calls (it is
cleared at the end of `_parse`), so it is not part of the state. -/
structure ParserState where
  arena : List Obj
  stack : List (Nat × Option String)
  in_string : Bool
  escape : Bool
  current_string : String
  expecting_colon : Bool
deriving DecidableEq

/-- `StreamingJsonParser.__init__`: root object at handle 0, one frame
`(root, None)`, all flags clear. -/
def initState : ParserState :=
  { arena := [[]]
    stack := [(0, none)]
    in_string := false
    escape := false
    current_string := ""
    expecting_colon := false }

/-- Python's `str.isspace()` restricted to the ASCII whitespace characters
(the branch is a no-op either way, so the restriction is observationally
irrelevant). -/
def pyIsSpace (c : Char) : Bool :=
  c = ' ' || c = '\t' || c = '\n' || c = '\x0b' || c = '\x0c' || c = '\r'

/-- The in-place assignment `current_obj[current_key] = <string v>` performed
through the frame handle `h`. -/
def writeVal (s : ParserState) (h : Nat) (k : String) (v : String) : ParserState :=
  { s with arena := setObj s.arena h (setKey (getObj s.arena h) k (Value.str v)) }

/-- One iteration of the character loop of `StreamingJsonParser._parse`.
Branches follow the source order.  The `[]`-stack fallbacks are unreachable:
the stack never empties (the pop is guarded by `len(self.stack) > 1`), and
Python would raise there; see `consumeChecked` for the fallible reading. -/
def step (s : ParserState) (c : Char) : ParserState :=
  if s.in_string then
    if s.escape then
      { s with current_string := s.current_string.push c, escape := false }
    else if c = '\\' then
      { s with escape := true }
    else if c = '\"' then
      if s.expecting_colon then
        -- closing quote of a key: it becomes the pending key of the top frame
        match s.stack with
        | (h, _) :: rest =>
            { s with in_string := false
                     stack := (h, some s.current_string) :: rest
                     expecting_colon := false
                     current_string := "" }
        | [] => { s with in_string := false, expecting_colon := false, current_string := "" }
      else
        -- closing quote of a value: assign it under the pending key, if any
        match s.stack with
        | (h, some k) :: rest =>
            { writeVal s h k s.current_string with
                in_string := false
                stack := (h, none) :: rest
                current_string := "" }
        | (_, none) :: _ => { s with in_string := false, current_string := "" }
        | [] => { s with in_string := false, current_string := "" }
    else
      { s with current_string := s.current_string.push c }
  else
    if c = '\x7b' then
      -- object open: only structural when the top frame has a pending key
      match s.stack with
      | (h, some k) :: rest =>
          { s with arena := setObj s.arena h (setKey (getObj s.arena h) k
                              (Value.obj s.arena.length)) ++ [[]]
                   stack := (s.arena.length, none) :: (h, none) :: rest }
      | _ => s
    else if c = '\x7d' then
      -- object close: pop, but never the bottom frame
      match s.stack with
      | _ :: f :: rest => { s with stack := f :: rest }
      | _ => s
    else if c = '\"' then
      -- string open: decide key vs value role now
      match s.stack with
      | (_, none) :: _ =>
          if s.expecting_colon then { s with in_string := true }
          else { s with in_string := true, expecting_colon := true }
      | _ => { s with in_string := true }
    else if c = ':' then s
    else if c = ',' then s
    else if pyIsSpace c then s
    else s

/-- The character loop of `_parse` over a list of characters. -/
def runChars (s : ParserState) (l : List Char) : ParserState :=
  l.foldl step s

/-- The partial-value exposure at the end of `_parse`: if a value string is
mid-flight and the top frame has a pending key, assign the accumulator's
current contents under that key.  Nothing else changes. -/
def expose (s : ParserState) : ParserState :=
  if s.in_string && !s.expecting_colon then
    match s.stack with
    | (h, some k) :: _ => writeVal s h k s.current_string
    | _ => s
  else s

/-- `StreamingJsonParser.consume`: append the chunk to the (empty) buffer,
run `_parse` over it, expose a mid-flight value, clear the buffer.  The
returned state is the parser itself (`return self`). -/
def consume (s : ParserState) (chunk : String) : ParserState :=
  expose (runChars s chunk.data)

/-- The materialised snapshot: a tree of objects with string leaves. -/
inductive JTree where
  | obj : List (String × JTree) → JTree
  | str : String → JTree

/-- Materialise the arena node at handle `h` as a tree, with fuel bounding
the recursion depth (handles strictly increase along parent-child edges, so
`arena.length` fuel always suffices). -/
def materialize (arena : List Obj) : Nat → Nat → JTree
  | 0, _ => .obj []
  | fuel + 1, h => .obj ((getObj arena h).map (fun p =>
      (p.1, match p.2 with
            | .str v => JTree.str v
            | .obj h2 => materialize arena fuel h2)))

/-- `StreamingJsonParser.get`: the root object as it currently stands. -/
def get (s : ParserState) : JTree :=
  materialize s.arena s.arena.length 0

/-- The per-character transition with Python's failure points made explicit:
every `self.stack[-1]` read raises `IndexError` on an empty stack, modelled
as `none`.  (`pop` and the object-open access are guarded by length checks in
the source and cannot fail.) -/
def stepChecked (s : ParserState) (c : Char) : Option ParserState :=
  if s.in_string then
    if s.escape then
      some { s with current_string := s.current_string.push c, escape := false }
    else if c = '\\' then
      some { s with escape := true }
    else if c = '\"' then
      if s.expecting_colon then
        match s.stack with
        | (h, _) :: rest =>
            some { s with in_string := false
                          stack := (h, some s.current_string) :: rest
                          expecting_colon := false
                          current_string := "" }
        | [] => none
      else
        match s.stack with
        | (h, some k) :: rest =>
            some { writeVal s h k s.current_string with
                     in_string := false
                     stack := (h, none) :: rest
                     current_string := "" }
        | (_, none) :: _ => some { s with in_string := false, current_string := "" }
        | [] => none
    else
      some { s with current_string := s.current_string.push c }
  else
    if c = '\x7b' then
      match s.stack with
      | (h, some k) :: rest =>
          some { s with arena := setObj s.arena h (setKey (getObj s.arena h) k
                            (Value.obj s.arena.length)) ++ [[]]
                        stack := (s.arena.length, none) :: (h, none) :: rest }
      | _ => some s
    else if c = '\x7d' then
      match s.stack with
      | _ :: f :: rest => some { s with stack := f :: rest }
      | _ => some s
    else if c = '\"' then
      match s.stack with
      | (_, none) :: _ =>
          if s.expecting_colon then some { s with in_string := true }
          else some { s with in_string := true, expecting_colon := true }
      | _ :: _ => some { s with in_string := true }
      | [] => none
    else
      some s

/-- The end-of-`_parse` exposure with the `self.stack[-1]` read made
explicit. -/
def exposeChecked (s : ParserState) : Option ParserState :=
  if s.in_string && !s.expecting_colon then
    match s.stack with
    | (h, some k) :: _ => some (writeVal s h k s.current_string)
    | (_, none) :: _ => some s
    | [] => none
  else some s

/-- `consume` with Python's failure points made explicit. -/
def consumeChecked (s : ParserState) (chunk : String) : Option ParserState :=
  (List.foldlM stepChecked s chunk.data).bind exposeChecked

/-- Every frame handle points inside the arena. -/
def stackOk (s : ParserState) : Bool :=
  s.stack.all (fun p => decide (p.1 < s.arena.length))

/-- A stored value is a string, or an object handle pointing inside an arena
of `n` nodes. -/
def valueOkB (n : Nat) : Value → Bool
  | .str _ => true
  | .obj h => decide (h < n)

/-- Every value stored anywhere in the arena is a string or a valid object
handle — no other shape exists. -/
def arenaOkB (A : List Obj) : Bool :=
  A.all (fun o => o.all (fun p => valueOkB A.length p.2))

/-- The frame stack is non-empty and its bottom frame owns the root object
(handle 0). -/
def bottomRoot (s : ParserState) : Prop :=
  ∃ l k, s.stack = l ++ [(0, k)]

/-! ### Association-list lemmas -/

theorem setKey_setKey (o : Obj) (k : String) (v w : Value) :
    setKey (setKey o k v) k w = setKey o k w := by
  induction o with
  | nil => simp [setKey]
  | cons p o ih =>
    by_cases hp : p.1 = k
    · simp [setKey, hp]
    · simp [setKey, hp, ih]

theorem lookupKey_setKey (o : Obj) (k : String) (v : Value) :
    lookupKey (setKey o k v) k = some v := by
  induction o with
  | nil => simp [setKey, lookupKey, List.find?]
  | cons p o ih =>
    by_cases hp : p.1 = k
    · simp [setKey, hp, lookupKey, List.find?]
    · simp only [setKey, lookupKey, List.find?, if_neg hp]
      have : (p.1 == k) = false := by simp [hp]
      simp only [this, cond_false]
      exact ih

theorem keys_setKey_of_mem (o : Obj) (k : String) (v : Value)
    (h : k ∈ o.map Prod.fst) : (setKey o k v).map Prod.fst = o.map Prod.fst := by
  induction o with
  | nil => simp at h
  | cons p o ih =>
    by_cases hp : p.1 = k
    · simp [setKey, hp]
    · simp only [List.map_cons, List.mem_cons] at h
      rcases h with h | h
      · exact absurd h.symm hp
      · simp [setKey, hp, ih h]

theorem mem_setKey (o : Obj) (k : String) (v : Value) (p : String × Value)
    (h : p ∈ setKey o k v) : p ∈ o ∨ p = (k, v) := by
  induction o with
  | nil => simp [setKey] at h; simp [h]
  | cons q o ih =>
    by_cases hq : q.1 = k
    · simp only [setKey, if_pos hq, List.mem_cons] at h
      rcases h with h | h
      · right; exact h
      · left; exact List.mem_cons_of_mem _ h
    · simp only [setKey, if_neg hq, List.mem_cons] at h
      rcases h with h | h
      · left; simp [h]
      · rcases ih h with h | h
        · left; exact List.mem_cons_of_mem _ h
        · right; exact h

/-! ### Arena lemmas -/

theorem length_setObj (A : List Obj) (h : Nat) (o : Obj) :
    (setObj A h o).length = A.length :=
  List.length_set A h o

theorem setObj_setObj (A : List Obj) (h : Nat) (o₁ o₂ : Obj) :
    setObj (setObj A h o₁) h o₂ = setObj A h o₂ :=
  List.set_set o₁ o₂ A h

theorem getObj_setObj_self (A : List Obj) (h : Nat) (o : Obj) (hlt : h < A.length) :
    getObj (setObj A h o) h = o := by
  induction A generalizing h with
  | nil => simp at hlt
  | cons a A ih =>
    cases h with
    | zero => simp [getObj, setObj]
    | succ h =>
      simp only [List.length_cons, Nat.succ_lt_succ_iff] at hlt
      simpa [getObj, setObj] using ih h hlt

theorem setObj_of_le (A : List Obj) (h : Nat) (o : Obj) (hle : A.length ≤ h) :
    setObj A h o = A := by
  induction A generalizing h with
  | nil => simp [setObj]
  | cons a A ih =>
    cases h with
    | zero => simp at hle
    | succ h =>
      simp only [List.length_cons, Nat.succ_le_succ_iff] at hle
      simpa [setObj] using ih h hle

theorem writeVal_writeVal (s : ParserState) (h : Nat) (k : String) (v w : String) :
    writeVal (writeVal s h k v) h k w = writeVal s h k w := by
  by_cases hlt : h < s.arena.length
  · simp only [writeVal, getObj_setObj_self _ _ _ hlt, setObj_setObj, setKey_setKey]
  · have hle : s.arena.length ≤ h := Nat.le_of_not_lt hlt
    simp only [writeVal, setObj_of_le _ _ _ hle]

/-! ### Characterizations of the per-character transition -/

theorem step_escape (s : ParserState) (c : Char)
    (hi : s.in_string = true) (he : s.escape = true) :
    step s c = { s with current_string := s.current_string.push c, escape := false } := by
  simp [step, hi, he]

theorem step_backslash (s : ParserState)
    (hi : s.in_string = true) (he : s.escape = false) :
    step s '\\' = { s with escape := true } := by
  simp [step, hi, he]

theorem step_strchar (s : ParserState) (c : Char)
    (hi : s.in_string = true) (he : s.escape = false)
    (hb : c ≠ '\\') (hq : c ≠ '\"') :
    step s c = { s with current_string := s.current_string.push c } := by
  simp [step, hi, he, hb, hq]

theorem step_close_key (s : ParserState) (h : Nat) (p : Option String)
    (rest : List (Nat × Option String))
    (hi : s.in_string = true) (he : s.escape = false) (hc : s.expecting_colon = true)
    (hs : s.stack = (h, p) :: rest) :
    step s '\"' =
      { s with
          in_string := false,
          stack := (h, some s.current_string) :: rest,
          expecting_colon := false,
          current_string := "" } := by
  simp [step, hi, he, hc, hs]

theorem step_close_value (s : ParserState) (h : Nat) (k : String)
    (rest : List (Nat × Option String))
    (hi : s.in_string = true) (he : s.escape = false) (hc : s.expecting_colon = false)
    (hs : s.stack = (h, some k) :: rest) :
    step s '\"' =
      { writeVal s h k s.current_string with
          in_string := false,
          stack := (h, none) :: rest,
          current_string := "" } := by
  simp [step, hi, he, hc, hs]

theorem step_close_value_nokey (s : ParserState) (h : Nat)
    (rest : List (Nat × Option String))
    (hi : s.in_string = true) (he : s.escape = false) (hc : s.expecting_colon = false)
    (hs : s.stack = (h, none) :: rest) :
    step s '\"' = { s with in_string := false, current_string := "" } := by
  simp [step, hi, he, hc, hs]

theorem step_open_obj (s : ParserState) (h : Nat) (k : String)
    (rest : List (Nat × Option String))
    (hi : s.in_string = false) (hs : s.stack = (h, some k) :: rest) :
    step s '\x7b' =
      { s with
          arena := setObj s.arena h (setKey (getObj s.arena h) k (Value.obj s.arena.length)) ++ [[]],
          stack := (s.arena.length, none) :: (h, none) :: rest } := by
  simp [step, hi, hs]

theorem step_open_obj_nokey (s : ParserState) (h : Nat)
    (rest : List (Nat × Option String))
    (hi : s.in_string = false) (hs : s.stack = (h, none) :: rest) :
    step s '\x7b' = s := by
  simp [step, hi, hs]

theorem step_close_obj_pop (s : ParserState) (f g : Nat × Option String)
    (rest : List (Nat × Option String))
    (hi : s.in_string = false) (hs : s.stack = f :: g :: rest) :
    step s '\x7d' = { s with stack := g :: rest } := by
  simp [step, hi, hs]

theorem step_close_obj_bottom (s : ParserState) (f : Nat × Option String)
    (hi : s.in_string = false) (hs : s.stack = [f]) :
    step s '\x7d' = s := by
  simp [step, hi, hs]

theorem step_skip (s : ParserState) (c : Char)
    (hi : s.in_string = false)
    (h1 : c ≠ '\x7b') (h2 : c ≠ '\x7d') (h3 : c ≠ '\"') :
    step s c = s := by
  simp [step, hi, h1, h2, h3]

/-! ### Projections of `writeVal` -/

@[simp] theorem writeVal_in_string (s : ParserState) (h : Nat) (k v : String) :
    (writeVal s h k v).in_string = s.in_string := rfl

@[simp] theorem writeVal_escape (s : ParserState) (h : Nat) (k v : String) :
    (writeVal s h k v).escape = s.escape := rfl

@[simp] theorem writeVal_stack (s : ParserState) (h : Nat) (k v : String) :
    (writeVal s h k v).stack = s.stack := rfl

@[simp] theorem writeVal_current_string (s : ParserState) (h : Nat) (k v : String) :
    (writeVal s h k v).current_string = s.current_string := rfl

@[simp] theorem writeVal_expecting_colon (s : ParserState) (h : Nat) (k v : String) :
    (writeVal s h k v).expecting_colon = s.expecting_colon := rfl

/-! ### The character loop -/

theorem runChars_nil (s : ParserState) : runChars s [] = s := rfl

theorem runChars_cons (s : ParserState) (c : Char) (l : List Char) :
    runChars s (c :: l) = runChars (step s c) l := rfl

theorem runChars_append (s : ParserState) (l₁ l₂ : List Char) :
    runChars s (l₁ ++ l₂) = runChars (runChars s l₁) l₂ :=
  List.foldl_append step s l₁ l₂

/-- Case analysis on the partial-value exposure. -/
theorem expose_cases (t : ParserState) :
    expose t = t ∨ ∃ h k rest, t.in_string = true ∧ t.expecting_colon = false ∧
      t.stack = (h, some k) :: rest ∧ expose t = writeVal t h k t.current_string := by
  by_cases hi : t.in_string = true
  · by_cases hc : t.expecting_colon = true
    · left; simp [expose, hi, hc]
    · have hc' : t.expecting_colon = false := by simpa using hc
      cases hstk : t.stack with
      | nil => left; simp [expose, hi, hc', hstk]
      | cons f rest =>
        obtain ⟨h, p⟩ := f
        cases p with
        | none => left; simp [expose, hi, hc', hstk]
        | some k =>
          right
          exact ⟨h, k, rest, hi, hc', rfl, by simp [expose, hi, hc', hstk]⟩
  · have hi' : t.in_string = false := by simpa using hi
    left; simp [expose, hi']

/-- Mid-flight exposure of a value string commutes with the rest of the scan:
the exposed entry is overwritten with the full value either when the closing
quote arrives or by the final exposure of the next call. -/
theorem expose_runChars_writeVal (l : List Char) (s : ParserState) (h : Nat)
    (k : String) (rest : List (Nat × Option String)) (v : String)
    (hi : s.in_string = true) (hc : s.expecting_colon = false)
    (hs : s.stack = (h, some k) :: rest) :
    expose (runChars (writeVal s h k v) l) = expose (runChars s l) := by
  induction l generalizing s v with
  | nil =>
    simp only [runChars_nil]
    have e1 : expose s = writeVal s h k s.current_string := by
      simp [expose, hi, hc, hs]
    have e2 : expose (writeVal s h k v) = writeVal s h k s.current_string := by
      simp only [expose, writeVal_in_string, writeVal_expecting_colon, hi, hc,
        Bool.not_false, Bool.and_self, if_true, writeVal_stack, hs,
        writeVal_current_string]
      exact writeVal_writeVal s h k v s.current_string
    rw [e1, e2]
  | cons c l' ih =>
    simp only [runChars_cons]
    by_cases he : s.escape = true
    · rw [step_escape (writeVal s h k v) c hi he, step_escape s c hi he]
      exact ih { s with current_string := s.current_string.push c, escape := false } v hi hc hs
    · have he' : s.escape = false := by simpa using he
      by_cases hq : c = '\"'
      · subst hq
        rw [step_close_value (writeVal s h k v) h k rest hi he' hc hs,
            step_close_value s h k rest hi he' hc hs]
        simp only [writeVal_current_string]
        rw [writeVal_writeVal]
      · by_cases hb : c = '\\'
        · subst hb
          rw [step_backslash (writeVal s h k v) hi he', step_backslash s hi he']
          exact ih { s with escape := true } v hi hc hs
        · rw [step_strchar (writeVal s h k v) c hi he' hb hq,
              step_strchar s c hi he' hb hq]
          exact ih { s with current_string := s.current_string.push c } v hi hc hs

theorem data_append (a b : String) : (a ++ b).data = a.data ++ b.data := rfl

/-- Consuming two chunks in sequence reaches the same state as consuming
their concatenation, from any starting state. -/
theorem consume_consume (s : ParserState) (a b : String) :
    consume (consume s a) b = consume s (a ++ b) := by
  unfold consume
  rw [data_append, runChars_append]
  rcases expose_cases (runChars s a.data) with hcase | ⟨h, k, rest, hi, hc, hs, hcase⟩
  · rw [hcase]
  · rw [hcase, expose_runChars_writeVal b.data (runChars s a.data) h k rest _ hi hc hs]

/-! ### The fallible reading never fails on a non-empty stack -/

theorem step_stack_ne (s : ParserState) (c : Char) (hne : s.stack ≠ []) :
    (step s c).stack ≠ [] := by
  cases hstk : s.stack with
  | nil => exact absurd hstk hne
  | cons f rest =>
    obtain ⟨h, p⟩ := f
    cases p <;> cases rest <;>
      (simp only [step, hstk]; split_ifs <;> simp [hstk])

theorem stepChecked_eq (s : ParserState) (c : Char) (hne : s.stack ≠ []) :
    stepChecked s c = some (step s c) := by
  cases hstk : s.stack with
  | nil => exact absurd hstk hne
  | cons f rest =>
    obtain ⟨h, p⟩ := f
    cases p <;> cases rest <;>
      (simp only [stepChecked, step, hstk]; split_ifs <;> rfl)

theorem exposeChecked_eq (s : ParserState) (hne : s.stack ≠ []) :
    exposeChecked s = some (expose s) := by
  cases hstk : s.stack with
  | nil => exact absurd hstk hne
  | cons f rest =>
    obtain ⟨h, p⟩ := f
    cases p <;>
      (simp only [exposeChecked, expose, hstk]; split_ifs <;> rfl)

theorem runChars_stack_ne (l : List Char) (s : ParserState) (hne : s.stack ≠ []) :
    (runChars s l).stack ≠ [] := by
  induction l generalizing s with
  | nil => exact hne
  | cons c l ih => exact ih (step s c) (step_stack_ne s c hne)

theorem foldlM_stepChecked (l : List Char) (s : ParserState) (hne : s.stack ≠ []) :
    List.foldlM stepChecked s l = some (runChars s l) := by
  induction l generalizing s with
  | nil => rfl
  | cons c l ih =>
    rw [List.foldlM_cons, stepChecked_eq s c hne]
    simpa [runChars_cons] using ih (step s c) (step_stack_ne s c hne)

/-! ### The bottom frame always owns the root -/

theorem stackBR_cons {st : List (Nat × Option String)} (x : Nat × Option String)
    (hp : ∃ l k, st = l ++ [(0, k)]) : ∃ l k, x :: st = l ++ [(0, k)] := by
  obtain ⟨l, k, hl⟩ := hp
  exact ⟨x :: l, k, by rw [hl]; rfl⟩

theorem stackBR_replace {h : Nat} {p : Option String} {rest : List (Nat × Option String)}
    (q : Option String) (hp : ∃ l k, (h, p) :: rest = l ++ [(0, k)]) :
    ∃ l k, (h, q) :: rest = l ++ [(0, k)] := by
  obtain ⟨l, k, hl⟩ := hp
  cases l with
  | nil =>
    simp only [List.nil_append, List.cons.injEq] at hl
    obtain ⟨hf, hr⟩ := hl
    cases hf
    exact ⟨[], q, by simp [hr]⟩
  | cons a l' =>
    simp only [List.cons_append, List.cons.injEq] at hl
    obtain ⟨hf, hr⟩ := hl
    exact ⟨(h, q) :: l', k, by rw [hr]; rfl⟩

theorem stackBR_pop {f g : Nat × Option String} {rest : List (Nat × Option String)}
    (hp : ∃ l k, f :: g :: rest = l ++ [(0, k)]) :
    ∃ l k, g :: rest = l ++ [(0, k)] := by
  obtain ⟨l, k, hl⟩ := hp
  cases l with
  | nil => simp at hl
  | cons a l' =>
    simp only [List.cons_append, List.cons.injEq] at hl
    exact ⟨l', k, hl.2⟩

theorem step_bottomRoot (s : ParserState) (c : Char) (hb : bottomRoot s) :
    bottomRoot (step s c) := by
  cases hstk : s.stack with
  | nil =>
    obtain ⟨l, k, hl⟩ := hb
    rw [hstk] at hl
    exact absurd hl (by simp)
  | cons f rest =>
    obtain ⟨h, p⟩ := f
    have hb' : ∃ l k, ((h, p) :: rest : List (Nat × Option String)) = l ++ [(0, k)] :=
      hstk ▸ hb
    cases p <;> cases rest <;>
      (simp only [step, hstk]; split_ifs <;>
        first
          | exact hb
          | exact stackBR_replace _ hb'
          | exact stackBR_cons _ (stackBR_replace _ hb')
          | exact stackBR_pop hb')

theorem expose_fields (s : ParserState) :
    (expose s).in_string = s.in_string ∧ (expose s).escape = s.escape ∧
    (expose s).current_string = s.current_string ∧ (expose s).stack = s.stack ∧
    (expose s).expecting_colon = s.expecting_colon ∧
    (expose s).arena.length = s.arena.length := by
  rcases expose_cases s with hcase | ⟨h, k, rest, _, _, _, hcase⟩ <;> rw [hcase] <;>
    simp [writeVal, setObj, List.length_set]

theorem runChars_bottomRoot (l : List Char) (s : ParserState) (hb : bottomRoot s) :
    bottomRoot (runChars s l) := by
  induction l generalizing s with
  | nil => exact hb
  | cons c l ih => exact ih (step s c) (step_bottomRoot s c hb)

theorem consume_bottomRoot (s : ParserState) (chunk : String) (hb : bottomRoot s) :
    bottomRoot (consume s chunk) := by
  have hr := runChars_bottomRoot chunk.data s hb
  obtain ⟨l, k, hl⟩ := hr
  exact ⟨l, k, by unfold consume; rw [(expose_fields (runChars s chunk.data)).2.2.2.1, hl]⟩

/-! ### Plain value characters only extend the accumulator -/

theorem data_push (s : String) (c : Char) : (s.push c).data = s.data ++ [c] := rfl

/-- Scanning characters that are neither a quote nor a backslash while inside
a string only appends them to the accumulator. -/
theorem runChars_plain (l : List Char) (s : ParserState)
    (hi : s.in_string = true) (he : s.escape = false)
    (hok : ∀ c ∈ l, c ≠ '\"' ∧ c ≠ '\\') :
    runChars s l = { s with current_string := String.mk (s.current_string.data ++ l) } := by
  induction l generalizing s with
  | nil => rw [runChars_nil, List.append_nil]
  | cons c l ih =>
    obtain ⟨hq, hb⟩ := hok c (List.mem_cons_self c l)
    rw [runChars_cons, step_strchar s c hi he hb hq,
      ih { s with current_string := s.current_string.push c } hi he
        (fun d hd => hok d (List.mem_cons_of_mem c hd))]
    show ({ s with current_string := String.mk ((s.current_string.push c).data ++ l) }
        : ParserState) = _
    rw [data_push, List.append_assoc]
    rfl

/-! ### Arena shape: strings and valid object handles only -/

theorem valueOkB_mono {n m : Nat} (hnm : n ≤ m) (v : Value) (h : valueOkB n v = true) :
    valueOkB m v = true := by
  cases v with
  | str t => rfl
  | obj h2 =>
    simp only [valueOkB, decide_eq_true_eq] at h ⊢
    omega

theorem getObj_mem_or_nil (A : List Obj) (h : Nat) : getObj A h ∈ A ∨ getObj A h = [] := by
  rcases Nat.lt_or_ge h A.length with hlt | hge
  · left
    show A.getD h [] ∈ A
    rw [List.getD_eq_getElem?_getD, List.getElem?_eq_getElem hlt]
    exact List.getElem_mem hlt
  · right
    show A.getD h [] = []
    rw [List.getD_eq_getElem?_getD, List.getElem?_eq_none hge]
    rfl

theorem arenaOkB_iff (A : List Obj) :
    arenaOkB A = true ↔ ∀ o ∈ A, ∀ p ∈ o, valueOkB A.length p.2 = true := by
  simp [arenaOkB, List.all_eq_true]

theorem arenaOkB_writeStr (A : List Obj) (h : Nat) (k : String) (v : String)
    (hA : arenaOkB A = true) :
    arenaOkB (setObj A h (setKey (getObj A h) k (Value.str v))) = true := by
  rw [arenaOkB_iff] at hA ⊢
  intro o ho p hp
  rw [length_setObj]
  rcases List.mem_or_eq_of_mem_set ho with ho' | rfl
  · exact hA o ho' p hp
  · rcases mem_setKey _ _ _ _ hp with hp' | rfl
    · rcases getObj_mem_or_nil A h with hg | hg
      · exact hA _ hg p hp'
      · rw [hg] at hp'; simp at hp'
    · rfl

theorem arenaOkB_push (A : List Obj) (h : Nat) (k : String)
    (hA : arenaOkB A = true) :
    arenaOkB (setObj A h (setKey (getObj A h) k (Value.obj A.length)) ++ [[]]) = true := by
  rw [arenaOkB_iff] at hA ⊢
  intro o ho p hp
  have hlen : (setObj A h (setKey (getObj A h) k (Value.obj A.length)) ++ [[]]).length
      = A.length + 1 := by
    simp [length_setObj]
  rw [hlen]
  rcases List.mem_append.1 ho with ho' | ho'
  · rcases List.mem_or_eq_of_mem_set ho' with ho'' | rfl
    · exact valueOkB_mono (Nat.le_succ _) _ (hA o ho'' p hp)
    · rcases mem_setKey _ _ _ _ hp with hp' | rfl
      · rcases getObj_mem_or_nil A h with hg | hg
        · exact valueOkB_mono (Nat.le_succ _) _ (hA _ hg p hp')
        · rw [hg] at hp'; simp at hp'
      · simp [valueOkB]
  · simp only [List.mem_singleton] at ho'
    subst ho'
    simp at hp

theorem step_arenaOk (s : ParserState) (c : Char) (hA : arenaOkB s.arena = true) :
    arenaOkB (step s c).arena = true := by
  cases hstk : s.stack with
  | nil =>
    simp only [step, hstk]; split_ifs <;> exact hA
  | cons f rest =>
    obtain ⟨h, p⟩ := f
    cases p <;> cases rest <;>
      (simp only [step, hstk]; split_ifs <;>
        first
          | exact hA
          | exact arenaOkB_writeStr s.arena h _ s.current_string hA
          | exact arenaOkB_push s.arena h _ hA)

theorem expose_arenaOk (s : ParserState) (hA : arenaOkB s.arena = true) :
    arenaOkB (expose s).arena = true := by
  rcases expose_cases s with hcase | ⟨h, k, rest, _, _, _, hcase⟩ <;> rw [hcase]
  · exact hA
  · exact arenaOkB_writeStr s.arena h k s.current_string hA

theorem runChars_arenaOk (l : List Char) (s : ParserState) (hA : arenaOkB s.arena = true) :
    arenaOkB (runChars s l).arena = true := by
  induction l generalizing s with
  | nil => exact hA
  | cons c l ih => exact ih (step s c) (step_arenaOk s c hA)

theorem consume_arenaOk (s : ParserState) (chunk : String) (hA : arenaOkB s.arena = true) :
    arenaOkB (consume s chunk).arena = true :=
  expose_arenaOk (runChars s chunk.data) (runChars_arenaOk chunk.data s hA)

/-! ### Claims -/

/-- C1: Chunk-boundary insensitivity — for every total input string and every
split of it into `a ++ b`, running `consume a` then `consume b` on a fresh
parser yields a final snapshot (and in fact a final state) equal to running
`consume (a ++ b)` on a fresh parser. -/
theorem chunk_split_insensitive (a b : String) :
    get (consume (consume initState a) b) = get (consume initState (a ++ b)) ∧
    consume (consume initState a) b = consume initState (a ++ b) :=
  ⟨congrArg get (consume_consume initState a b), consume_consume initState a b⟩

/-- C3: A partial key is never exposed — when the scan ends with a key-string
in flight (`expecting_colon` set), the end-of-call exposure does nothing, so
`consume` returns the bare scan state with no entry from the unfinished key;
in particular consuming `{"foo` on a fresh parser leaves the empty object. -/
theorem key_string_never_exposed :
    (∀ (s : ParserState) (chunk : String),
        (runChars s chunk.data).expecting_colon = true →
        consume s chunk = runChars s chunk.data) ∧
    get (consume initState "\x7b\"foo") = JTree.obj [] := by
  constructor
  · intro s chunk hcol
    unfold consume
    simp [expose, hcol]
  · rfl

/-- Witness for C3 at the concrete input `{"foo`. -/
theorem key_string_never_exposed_app :
    (runChars initState ("\x7b\"foo" : String).data).expecting_colon = true ∧
    consume initState "\x7b\"foo" = runChars initState ("\x7b\"foo" : String).data :=
  ⟨by decide, key_string_never_exposed.1 initState "\x7b\"foo" (by decide)⟩

/-- C7: Non-string literals are silently skipped — outside a string, any
character other than the brace tokens and the quote leaves the state exactly
unchanged (this covers digits, `t/f/n` of `true/false/null`, brackets of
arrays, colons, commas and whitespace), and e.g. consuming `{"a": true}` on a
fresh parser produces no entry at all. -/
theorem nonstring_literals_skipped :
    (∀ (s : ParserState) (c : Char), s.in_string = false →
        c ≠ '\x7b' → c ≠ '\x7d' → c ≠ '\"' → step s c = s) ∧
    get (consume initState "\x7b\"a\": true\x7d") = JTree.obj [] :=
  ⟨fun s c hi h1 h2 h3 => step_skip s c hi h1 h2 h3, rfl⟩

/-- Witness for C7 at the literal character `t` on a fresh parser. -/
theorem nonstring_literals_skipped_app :
    initState.in_string = false ∧ step initState 't' = initState :=
  ⟨rfl, nonstring_literals_skipped.1 initState 't' rfl (by decide) (by decide) (by decide)⟩

/-- C8: Escape handling — while in a string, a backslash appends nothing and
only sets the escape flag; with the flag set, the next character (whatever it
is) is appended verbatim and the flag cleared; concretely, the input
`{"a": "\"b"}` yields the value `"b` (backslash dropped, quote literal). -/
theorem escape_takes_next_verbatim :
    (∀ s : ParserState, s.in_string = true → s.escape = false →
        step s '\\' = { s with escape := true }) ∧
    (∀ (s : ParserState) (c : Char), s.in_string = true → s.escape = true →
        step s c = { s with current_string := s.current_string.push c, escape := false }) ∧
    get (consume initState "\x7b\"a\": \"\\\"b\"\x7d") = JTree.obj [("a", JTree.str "\"b")] :=
  ⟨fun s hi he => step_backslash s hi he, fun s c hi he => step_escape s c hi he, rfl⟩

/-- Witness for C8 on a state inside a string. -/
theorem escape_takes_next_verbatim_app :
    ({ initState with in_string := true } : ParserState).in_string = true ∧
    step { initState with in_string := true } '\\' =
      { ({ initState with in_string := true } : ParserState) with escape := true } :=
  ⟨rfl, escape_takes_next_verbatim.1 { initState with in_string := true } rfl rfl⟩

/-- C2: Partial-value exposure — whenever a `consume` call ends with a
value-string mid-flight (`in_string` true, `expecting_colon` false) and the
top frame holds a pending key, the frame's object carries an entry under that
key equal to the accumulated characters so far; a further chunk of plain
value characters extends (never resets) the accumulator; and the exposure
itself clears neither the in-string flag nor the accumulator. -/
theorem midflight_value_exposed :
    (∀ (s : ParserState) (chunk : String) (h : Nat) (k : String)
        (rest : List (Nat × Option String)),
        h < (consume s chunk).arena.length →
        (consume s chunk).in_string = true →
        (consume s chunk).expecting_colon = false →
        (consume s chunk).stack = (h, some k) :: rest →
        lookupKey (getObj (consume s chunk).arena h) k =
          some (Value.str (consume s chunk).current_string)) ∧
    (∀ (s : ParserState) (chunk : String), s.in_string = true → s.escape = false →
        (∀ c ∈ chunk.data, c ≠ '\"' ∧ c ≠ '\\') →
        (consume s chunk).current_string =
          String.mk (s.current_string.data ++ chunk.data)) ∧
    (∀ s : ParserState, (expose s).in_string = s.in_string ∧
        (expose s).escape = s.escape ∧
        (expose s).current_string = s.current_string) := by
  refine ⟨?_, ?_, fun s =>
    ⟨(expose_fields s).1, (expose_fields s).2.1, (expose_fields s).2.2.1⟩⟩
  · intro s chunk h k rest hlt hi hc hs
    have ef := expose_fields (runChars s chunk.data)
    have hi' : (runChars s chunk.data).in_string = true := by rw [← ef.1]; exact hi
    have hc' : (runChars s chunk.data).expecting_colon = false := by
      rw [← ef.2.2.2.2.1]; exact hc
    have hs' : (runChars s chunk.data).stack = (h, some k) :: rest := by
      rw [← ef.2.2.2.1]; exact hs
    have hlt' : h < (runChars s chunk.data).arena.length := by
      rw [← ef.2.2.2.2.2]; exact hlt
    have hexp : consume s chunk =
        writeVal (runChars s chunk.data) h k (runChars s chunk.data).current_string := by
      unfold consume; simp [expose, hi', hc', hs']
    rw [hexp]
    show lookupKey (getObj (setObj (runChars s chunk.data).arena h
        (setKey (getObj (runChars s chunk.data).arena h) k
          (Value.str (runChars s chunk.data).current_string))) h) k =
      some (Value.str (runChars s chunk.data).current_string)
    rw [getObj_setObj_self _ _ _ hlt', lookupKey_setKey]
  · intro s chunk hi he hok
    unfold consume
    rw [runChars_plain chunk.data s hi he hok]
    exact (expose_fields
      { s with current_string := String.mk (s.current_string.data ++ chunk.data) }).2.2.1

/-- Witness for C2: after `consume('{"a": "xy')` the snapshot object holds
the entry `"a" ↦ "xy"` while the value string is still open. -/
theorem midflight_value_exposed_app :
    0 < (consume initState "\x7b\"a\": \"xy").arena.length ∧
    (consume initState "\x7b\"a\": \"xy").in_string = true ∧
    (consume initState "\x7b\"a\": \"xy").expecting_colon = false ∧
    (consume initState "\x7b\"a\": \"xy").stack = [(0, some "a")] ∧
    lookupKey (getObj (consume initState "\x7b\"a\": \"xy").arena 0) "a" =
      some (Value.str (consume initState "\x7b\"a\": \"xy").current_string) :=
  ⟨by decide, by decide, by decide, by decide,
   midflight_value_exposed.1 initState "\x7b\"a\": \"xy" 0 "a" []
     (by decide) (by decide) (by decide) (by decide)⟩

/-- C4: Nesting — an object-open token seen while the top frame has a pending
key allocates a new empty object at the next handle, assigns it under that
key, clears the pending key and pushes a frame for it; each object-close pops
exactly one frame except at the bottom; concretely,
`consume('{"outer": {"inner": "value')` yields
`{"outer": {"inner": "value"}}`. -/
theorem nested_object_under_key :
    (∀ (s : ParserState) (h : Nat) (k : String) (rest : List (Nat × Option String)),
        s.in_string = false → s.stack = (h, some k) :: rest →
        step s '\x7b' =
          { s with
              arena := setObj s.arena h (setKey (getObj s.arena h) k
                          (Value.obj s.arena.length)) ++ [[]],
              stack := (s.arena.length, none) :: (h, none) :: rest }) ∧
    (∀ (s : ParserState) (f g : Nat × Option String) (rest : List (Nat × Option String)),
        s.in_string = false → s.stack = f :: g :: rest →
        step s '\x7d' = { s with stack := g :: rest }) ∧
    (∀ (s : ParserState) (f : Nat × Option String),
        s.in_string = false → s.stack = [f] → step s '\x7d' = s) ∧
    get (consume initState "\x7b\"outer\": \x7b\"inner\": \"value") =
      JTree.obj [("outer", JTree.obj [("inner", JTree.str "value")])] :=
  ⟨fun s h k rest hi hs => step_open_obj s h k rest hi hs,
   fun s f g rest hi hs => step_close_obj_pop s f g rest hi hs,
   fun s f hi hs => step_close_obj_bottom s f hi hs, rfl⟩

/-- Witness for C4: opening an object while the pending key is `"a"`. -/
theorem nested_object_under_key_app :
    ({ initState with stack := [(0, some "a")] } : ParserState).in_string = false ∧
    step { initState with stack := [(0, some "a")] } '\x7b' =
      { ({ initState with stack := [(0, some "a")] } : ParserState) with
          arena := setObj initState.arena 0 (setKey (getObj initState.arena 0) "a"
                      (Value.obj initState.arena.length)) ++ [[]],
          stack := (initState.arena.length, none) :: (0, none) :: [] } :=
  ⟨rfl, nested_object_under_key.1 { initState with stack := [(0, some "a")] } 0 "a" [] rfl rfl⟩

/-- C5: `consume` never fails — with every fallible operation of the source
(`self.stack[-1]` on an empty stack) made explicit, `consume` succeeds from
every state whose frame stack is non-empty (an invariant of every reachable
state, C6) and returns the updated parser. -/
theorem consume_never_fails :
    ∀ (s : ParserState) (chunk : String), s.stack ≠ [] →
      consumeChecked s chunk = some (consume s chunk) := by
  intro s chunk hne
  unfold consumeChecked consume
  rw [foldlM_stepChecked chunk.data s hne]
  simpa using exposeChecked_eq (runChars s chunk.data) (runChars_stack_ne chunk.data s hne)

/-- Witness for C5 on a thoroughly malformed chunk. -/
theorem consume_never_fails_app :
    initState.stack ≠ [] ∧
    consumeChecked initState "\x7b\"a\": 1,,\x7d\x7d]\x7d" =
      some (consume initState "\x7b\"a\": 1,,\x7d\x7d]\x7d") :=
  ⟨by decide, consume_never_fails initState "\x7b\"a\": 1,,\x7d\x7d]\x7d" (by decide)⟩

/-- C6: Frame-stack invariant — the fresh parser's stack is non-empty with
the root (handle 0) at the bottom; both properties are preserved by every
`consume`; and an object-close token pops exactly one frame when at least two
exist, and nothing when only the bottom frame remains. -/
theorem frame_stack_invariant :
    bottomRoot initState ∧
    (∀ (s : ParserState) (chunk : String), bottomRoot s → bottomRoot (consume s chunk)) ∧
    (∀ (s : ParserState) (chunk : String), s.stack ≠ [] → (consume s chunk).stack ≠ []) ∧
    (∀ (s : ParserState) (f : Nat × Option String),
        s.in_string = false → s.stack = [f] → step s '\x7d' = s) ∧
    (∀ (s : ParserState) (f g : Nat × Option String) (rest : List (Nat × Option String)),
        s.in_string = false → s.stack = f :: g :: rest →
        step s '\x7d' = { s with stack := g :: rest }) := by
  refine ⟨⟨[], none, rfl⟩, fun s chunk hb => consume_bottomRoot s chunk hb, ?_,
    fun s f hi hs => step_close_obj_bottom s f hi hs,
    fun s f g rest hi hs => step_close_obj_pop s f g rest hi hs⟩
  intro s chunk hne
  have hr := runChars_stack_ne chunk.data s hne
  unfold consume
  rw [(expose_fields (runChars s chunk.data)).2.2.2.1]
  exact hr

/-- Witness for C6: even a chunk of stray closing braces keeps the root at
the bottom of a non-empty stack. -/
theorem frame_stack_invariant_app :
    bottomRoot initState ∧ bottomRoot (consume initState "\x7d\x7d\x7d") :=
  ⟨⟨[], none, rfl⟩, frame_stack_invariant.2.1 initState "\x7d\x7d\x7d" ⟨[], none, rfl⟩⟩

/-- C9: Shape invariant — every value stored anywhere in the arena is a
string or a (valid) handle to a nested object, a property that holds at
construction and is preserved by every `consume`; and the snapshot root is
always an object. -/
theorem result_shape_invariant :
    arenaOkB initState.arena = true ∧
    (∀ (s : ParserState) (chunk : String), arenaOkB s.arena = true →
        arenaOkB (consume s chunk).arena = true) ∧
    (∀ s : ParserState, ∃ entries, get s = JTree.obj entries) := by
  refine ⟨rfl, fun s chunk hA => consume_arenaOk s chunk hA, ?_⟩
  intro s
  unfold get
  cases hn : s.arena.length with
  | zero => exact ⟨[], rfl⟩
  | succ n => exact ⟨_, rfl⟩

/-- Witness for C9 on an incomplete nested input. -/
theorem result_shape_invariant_app :
    arenaOkB initState.arena = true ∧
    arenaOkB (consume initState "\x7b\"a\": \x7b\"b\": \"c\"").arena = true :=
  ⟨rfl, result_shape_invariant.2.1 initState "\x7b\"a\": \x7b\"b\": \"c\"" rfl⟩

/-- C10: Duplicate keys overwrite — assigning under an existing key replaces
its value in place, leaving a single entry for that key, and consuming
`{"a": "x", "a": "y"}` on a fresh parser yields `{"a": "y"}`. -/
theorem duplicate_key_overwrites :
    (∀ (o : Obj) (k : String) (v : Value), lookupKey (setKey o k v) k = some v) ∧
    (∀ (o : Obj) (k : String) (v : Value), k ∈ o.map Prod.fst →
        (setKey o k v).map Prod.fst = o.map Prod.fst) ∧
    get (consume initState "\x7b\"a\": \"x\", \"a\": \"y\"\x7d") =
      JTree.obj [("a", JTree.str "y")] :=
  ⟨lookupKey_setKey, keys_setKey_of_mem, rfl⟩

/-- Witness for C10 on a one-entry object. -/
theorem duplicate_key_overwrites_app :
    "a" ∈ ([("a", Value.str "x")] : Obj).map Prod.fst ∧
    (setKey [("a", Value.str "x")] "a" (Value.str "y")).map Prod.fst =
      ([("a", Value.str "x")] : Obj).map Prod.fst :=
  ⟨by decide, duplicate_key_overwrites.2.1 [("a", Value.str "x")] "a" (Value.str "y") (by decide)⟩

end DjParser
